import Mathlib

/-!
# Verification of the RefactorForge pattern extraction engine

Shallow embedding of `src/backend/pattern-extractor.py` and proofs about it.
Strings are modelled as `List Char`, Python floats as `ℚ` (the only float
values in play are the fixed severity constants 0.3 / 0.6 / 0.9 / 1.0 and
comparisons between them, which behave identically over `ℚ`).
-/

set_option maxHeartbeats 1000000

/-- The closed category enumeration (`PatternCategory` in the source). -/
inductive PatternCategory where
  | performance
  | type_safety
  | architecture
  | error_handling
  | async_patterns
  | react_patterns
  | file_operations
  | code_quality
deriving DecidableEq, Repr

/-- The `.value` string of each `PatternCategory` member in the source. -/
def PatternCategory.value : PatternCategory → List Char
  | .performance => ("performance".toList)
  | .type_safety => ("type-safety".toList)
  | .architecture => ("architecture".toList)
  | .error_handling => ("error-handling".toList)
  | .async_patterns => ("async-patterns".toList)
  | .react_patterns => ("react-patterns".toList)
  | .file_operations => ("file-operations".toList)
  | .code_quality => ("code-quality".toList)

/-- The four-member severity enumeration (`PatternSeverity` in the source). -/
inductive PatternSeverity where
  | low
  | medium
  | high
  | critical
deriving DecidableEq, Repr

/-- The numeric `.value` of each `PatternSeverity` member
(`LOW = 0.3`, `MEDIUM = 0.6`, `HIGH = 0.9`, `CRITICAL = 1.0`). -/
def PatternSeverity.value : PatternSeverity → ℚ
  | .low => 3/10
  | .medium => 6/10
  | .high => 9/10
  | .critical => 1

/-- Guaranteed keys of the open metadata map attached to a pattern by
`_extract_patterns_from_file`. -/
structure Metadata where
  match_length : Nat
  file_size : Nat
  total_lines : Nat
deriving DecidableEq, Repr

/-- The `CodePattern` dataclass of the source: one concrete match of a rule. -/
structure CodePattern where
  pattern_type : List Char
  pattern_content : List Char
  description : List Char
  category : PatternCategory
  subcategory : Option (List Char)
  file_path : List Char
  line_start : Nat
  line_end : Nat
  language : List Char
  framework : Option (List Char)
  confidence_score : ℚ
  usage_count : Nat := 1
  context_before : List Char := []
  context_after : List Char := []
  tags : List (List Char) := []
  metadata : Metadata := ⟨0, 0, 0⟩
deriving DecidableEq, Repr

/-- The digest `CodePattern.pattern_hash`: the source computes the md5
hexdigest of the colon-joined rule id, matched text and category value.  We
model the digest by its pre-image string, i.e. we treat md5 as injective: two patterns
get the same modelled hash exactly when the digested strings coincide, which
is the deduplication identity the digest is for (md5 collisions are outside
the reach of a shallow embedding). -/
def CodePattern.pattern_hash (p : CodePattern) : List Char :=
  p.pattern_type ++ ':' :: p.pattern_content ++ ':' :: p.category.value

/-- The keys of `pattern_definitions`: the 18 rule identifiers of the registry. -/
def ruleNames : List (List Char) :=
  [("fs_sync_operations".toList), ("fs_async_operations".toList),
   ("any_type_usage".toList), ("interface_definitions".toList),
   ("type_assertions".toList), ("await_usage".toList),
   ("promise_usage".toList), ("callback_patterns".toList),
   ("react_hooks".toList), ("react_memo".toList),
   ("useCallback_useMemo".toList), ("try_catch_blocks".toList),
   ("error_throwing".toList), ("arrow_functions".toList),
   ("destructuring".toList), ("template_literals".toList),
   ("console_statements".toList), ("todo_comments".toList)]

/-- The `(rule id, matched text, category)` triple that identifies a pattern. -/
def keyTriple (p : CodePattern) : List Char × List Char × PatternCategory :=
  (p.pattern_type, p.pattern_content, p.category)

/-! ## Deduplication / aggregation
(`save_patterns_to_database`, lines 361-372: the `pattern_groups` dict). -/

/-- One entry of the `pattern_groups` dict: the dict key (the hash), the
representative pattern stored at creation, the running count and the running
file set.  The Python `set` is modelled as an insertion-ordered duplicate-free
list; the claims only use its membership and cardinality. -/
structure PatternGroup where
  key : List Char
  rep : CodePattern
  count : Nat
  files : List (List Char)
deriving DecidableEq, Repr

/-- Python `set.add`: insert a file path if not already present. -/
def addFile (fs : List (List Char)) (f : List Char) : List (List Char) :=
  if f ∈ fs then fs else fs ++ [f]

/-- Process one occurrence into the group accumulator, exactly as the loop body:
a new dict entry (with the occurrence as representative) when the hash is
unseen, else `count += 1` and `files.add(file_path)` on the existing entry.
Python dicts preserve insertion order, hence the ordered list of groups. -/
def insertOcc : List PatternGroup → CodePattern → List PatternGroup
  | [], p => [⟨p.pattern_hash, p, 1, [p.file_path]⟩]
  | g :: gs, p =>
    if g.key = p.pattern_hash then
      { g with count := g.count + 1, files := addFile g.files p.file_path } :: gs
    else
      g :: insertOcc gs p

/-- The whole grouping loop of `save_patterns_to_database`. -/
def aggregate (ps : List CodePattern) : List PatternGroup :=
  ps.foldl insertOcc []

/-- Look up the group with a given hash key. -/
def findGroup (gs : List PatternGroup) (h : List Char) : Option PatternGroup :=
  gs.find? (fun g => decide (g.key = h))

/-- Specification helper: the distinct file paths, in first-seen order, of
the occurrences carrying hash `h`. -/
def dedupFilesOf (ps : List CodePattern) (h : List Char) : List (List Char) :=
  ps.foldl (fun fs p => if p.pattern_hash = h then addFile fs p.file_path else fs) []

/-! ## Line numbers and context windows
(`_extract_patterns_from_file`, lines 288-296). -/

/-- Embeds `content[:i].count(newline)`: newline characters strictly before
offset `i`. -/
def nlCount (T : List Char) (i : Nat) : Nat :=
  (T.take i).count '\n'

/-- Line 289: `line_start = content[:match.start()].count('\n') + 1`. -/
def lineStart (T : List Char) (s : Nat) : Nat :=
  nlCount T s + 1

/-- Line 290: `line_end = content[:match.end()].count('\n') + 1`. -/
def lineEnd (T : List Char) (e : Nat) : Nat :=
  nlCount T e + 1

/-- Character offset of the start of (1-indexed) line `k` of `T`: the offset
just after the `(k-1)`-th newline (and `0` for line 1). -/
def lineStartOffset : List Char → Nat → Nat
  | _, 0 => 0
  | _, 1 => 0
  | [], _ + 2 => 0
  | c :: t, k + 2 =>
    if c = '\n' then 1 + lineStartOffset t (k + 1) else 1 + lineStartOffset t (k + 2)

/-- Character offset of the end of (1-indexed) line `k` of `T`: the offset of
the `k`-th newline, or `T.length` when `T` has fewer than `k` newlines. -/
def lineEndOffset : List Char → Nat → Nat
  | [], _ => 0
  | c :: t, k =>
    if c = '\n' then (if k ≤ 1 then 0 else 1 + lineEndOffset t (k - 1))
    else 1 + lineEndOffset t k

/-- The substring of `T` spanning from the start of line `k` to the end of
line `l`. -/
def lineSpan (T : List Char) (k l : Nat) : List Char :=
  (T.drop (lineStartOffset T k)).take (lineEndOffset T l - lineStartOffset T k)

/-- Python slice `xs[a:b]` for nonnegative bounds. -/
def pySlice (xs : List (List Char)) (a b : Nat) : List (List Char) :=
  (xs.take b).drop a

/-- Lines 293 and 295:
`context_before = '\n'.join(lines[max(0, line_start - 3) : line_start - 1])`
(truncated subtraction on `Nat` is exactly the `max(0, ·)` clamping). -/
def contextBefore (lines : List (List Char)) (ls : Nat) : List Char :=
  List.intercalate ("\n".toList) (pySlice lines (ls - 3) (ls - 1))

/-- Lines 294 and 296:
`context_after = '\n'.join(lines[line_end : min(len(lines), line_end + 2)])`. -/
def contextAfter (lines : List (List Char)) (le : Nat) : List Char :=
  List.intercalate ("\n".toList) (pySlice lines le (min lines.length (le + 2)))

/-- The last `n` elements of a list (spec-side helper for "the `n` lines
immediately preceding"). -/
def takeLast (n : Nat) (xs : List (List Char)) : List (List Char) :=
  xs.drop (xs.length - n)

/-! ## Framework classification
(`_determine_framework`, lines 332-344).  The five `re.search` calls use only
literal alternations, `.*` (which does not cross a newline without
`re.DOTALL`), `\s+`, and a quote class (double or single quote); each is
embedded as a decidable search over the content. -/

/-- ASCII lowercasing, matching `re.IGNORECASE` on the ASCII patterns used. -/
def lowerStr (s : List Char) : List Char :=
  s.map Char.toLower

/-- Substring search: `sub` occurs contiguously somewhere in `s`. -/
def containsSub (s sub : List Char) : Bool :=
  match s with
  | [] => sub.isEmpty
  | _ :: t => sub.isPrefixOf s || containsSub t sub

/-- The characters matched by `\s` in Python regexes (ASCII range). -/
def isSpaceCh (c : Char) : Bool :=
  c = ' ' || c = '\t' || c = '\n' || c = '\r' || c = '\x0b' || c = '\x0c'

/-- The quote class of the regexes: a double or a single quote. -/
def isQuoteCh (c : Char) : Bool :=
  c = Char.ofNat 34 || c = Char.ofNat 39

/-- Whether `x`, wrapped in opening and closing quote-class characters,
matches at the head of `s`. -/
def quotedAt (x s : List Char) : Bool :=
  match s with
  | [] => false
  | q :: rest =>
    isQuoteCh q && x.isPrefixOf rest &&
      (match rest.drop x.length with
       | [] => false
       | c :: _ => isQuoteCh c)

/-- Whether a quote-class character followed by `x` (no closing quote
required) matches at the head of `s`. -/
def quotedOpenAt (x s : List Char) : Bool :=
  match s with
  | [] => false
  | q :: rest => isQuoteCh q && x.isPrefixOf rest

/-- Matches `\s+` followed by a position where `p` matches: at least one whitespace
character, then `p`. -/
def spacesThen (p : List Char → Bool) : List Char → Bool
  | [] => false
  | c :: t => isSpaceCh c && (p t || spacesThen p t)

/-- Embeds the regex alternative `import.*x`: an occurrence of `import` followed, within
the same line (`.` does not match `'\n'`), by an occurrence of `x` (which
itself contains no newline). -/
def importThen (x : List Char) : List Char → Bool
  | [] => false
  | c :: t =>
    (("import".toList).isPrefixOf (c :: t) &&
      containsSub ((c :: t).drop 6 |>.takeWhile (fun d => !(d = '\n' : Bool))) x)
    || importThen x t

/-- Embeds the regex alternative: `from`, whitespace, then `x` wrapped in
quote-class characters. -/
def fromQuoted (x : List Char) : List Char → Bool
  | [] => false
  | c :: t =>
    (("from".toList).isPrefixOf (c :: t) && spacesThen (quotedAt x) ((c :: t).drop 4))
    || fromQuoted x t

/-- Embeds the regex alternative: `from`, whitespace, a quote-class
character, then `x` (the `@angular` alternative has no closing quote). -/
def fromQuotedOpen (x : List Char) : List Char → Bool
  | [] => false
  | c :: t =>
    (("from".toList).isPrefixOf (c :: t) && spacesThen (quotedOpenAt x) ((c :: t).drop 4))
    || fromQuotedOpen x t

/-- Line 334: the case-insensitive react search — `import.*react`, or
`react` quoted after `from`. -/
def reactSearch (content : List Char) : Bool :=
  importThen ("react".toList) (lowerStr content) ||
    fromQuoted ("react".toList) (lowerStr content)

/-- Line 336: the same pattern for `vue`. -/
def vueSearch (content : List Char) : Bool :=
  importThen ("vue".toList) (lowerStr content) ||
    fromQuoted ("vue".toList) (lowerStr content)

/-- Line 338: the case-insensitive angular search — `import.*angular`, or a
quote then `@angular` after `from`. -/
def angularSearch (content : List Char) : Bool :=
  importThen ("angular".toList) (lowerStr content) ||
    fromQuotedOpen ("@angular".toList) (lowerStr content)

/-- Line 340: the case-sensitive express search — `express(`, `app.get` or
`app.post` as a substring. -/
def expressSearch (content : List Char) : Bool :=
  containsSub content ("express(".toList) ||
    containsSub content ("app.get".toList) ||
    containsSub content ("app.post".toList)

/-- Line 342, content half — `require(` or `module.exports` as a substring. -/
def nodeContentSearch (content : List Char) : Bool :=
  containsSub content ("require(".toList) ||
    containsSub content ("module.exports".toList)

/-- Embeds `_determine_framework(content, file_path)`: the nested `if`/`elif` chain
of lines 334-344, including the path-substring test (`node` inside
`str(file_path)`) in the disjunct of the
`nodejs` branch. -/
def determineFramework (content file_path : List Char) : Option (List Char) :=
  if reactSearch content then some ("react".toList)
  else if vueSearch content then some ("vue".toList)
  else if angularSearch content then some ("angular".toList)
  else if expressSearch content then some ("express".toList)
  else if containsSub file_path ("node".toList) || nodeContentSearch content then
    some ("nodejs".toList)
  else none

/-! ## Report generation
(`generate_pattern_report`, lines 441-450: the severity bucketing). -/

/-- Lines 442-449: the tier label the report assigns to a confidence score. -/
def severityLabel (c : ℚ) : List Char :=
  if c ≥ 9/10 then ("critical".toList)
  else if c ≥ 6/10 then ("high".toList)
  else if c ≥ 3/10 then ("medium".toList)
  else ("low".toList)

/-- The update `severity_counts[severity] = severity_counts.get(severity, 0) + 1` on an
insertion-ordered counter dict. -/
def bumpCount (m : List (List Char × Nat)) (k : List Char) : List (List Char × Nat) :=
  match m with
  | [] => [(k, 1)]
  | (k0, n) :: rest => if k0 = k then (k0, n + 1) :: rest else (k0, n) :: bumpCount rest k

/-- The `severity_counts` dict built by the report loop. -/
def severityCounts (ps : List CodePattern) : List (List Char × Nat) :=
  ps.foldl (fun m p => bumpCount m (severityLabel p.confidence_score)) []

/-! ## Persistence
(`save_patterns_to_database`, lines 346-423).  The database is modelled as a
list of rows; the transactional semantics of the sqlite connection (all statements
between `connect` and `commit` form one transaction, `rollback` restores the
pre-transaction state) is the contract of the external storage engine the
code relies on.  The generated `uuid4` primary key and the two timestamps
are environment inputs with no bearing on any claim and are omitted from the
row model. -/

/-- One row of `repository_patterns`, as bound by the `INSERT` at line 383. -/
structure Row where
  repository_id : List Char
  pattern_type : List Char
  pattern_content : List Char
  pattern_hash : List Char
  category : List Char
  subcategory : Option (List Char)
  file_path : List Char
  line_start : Nat
  line_end : Nat
  language : List Char
  framework : Option (List Char)
  confidence_score : ℚ
  usage_count : Nat
  context_before : List Char
  context_after : List Char
  file_count : Nat
  files : List (List Char)
deriving DecidableEq, Repr

/-- The SQL statements the function issues inside the transaction. -/
inductive DbOp where
  | del (repo : List Char)
  | ins (r : Row)
deriving DecidableEq, Repr

/-- Effect of one statement on the table. -/
def applyOp (db : List Row) : DbOp → List Row
  | .del repo => db.filter (fun r => !decide (r.repository_id = repo))
  | .ins r => db ++ [r]

/-- Running a list of statements in order. -/
def runOps (db : List Row) (ops : List DbOp) : List Row :=
  ops.foldl applyOp db

/-- One sqlite transaction over the statement list: on success (`failAt =
none`) every statement is applied and committed; an exception after `k`
statements (`failAt = some k`) reaches the `except` branch, whose
`conn.rollback()` discards the uncommitted statements and restores the
pre-transaction table. -/
def runTransaction (db : List Row) (ops : List DbOp) (failAt : Option Nat) : List Row :=
  match failAt with
  | none => runOps db ops
  | some _ => db

/-- The row the `INSERT` at line 383 builds for one aggregated group:
representative fields verbatim, the shared hash, the aggregated
`usage_count`, and the `file_count`/`files` fold-in of lines 380-381. -/
def rowOf (repo : List Char) (g : PatternGroup) : Row :=
  { repository_id := repo
    pattern_type := g.rep.pattern_type
    pattern_content := g.rep.pattern_content
    pattern_hash := g.rep.pattern_hash
    category := g.rep.category.value
    subcategory := g.rep.subcategory
    file_path := g.rep.file_path
    line_start := g.rep.line_start
    line_end := g.rep.line_end
    language := g.rep.language
    framework := g.rep.framework
    confidence_score := g.rep.confidence_score
    usage_count := g.count
    context_before := g.rep.context_before
    context_after := g.rep.context_after
    file_count := g.files.length
    files := g.files }

/-- The statement list of one save: the `DELETE` for the repository id (line
359) followed by one `INSERT` per aggregated group (line 383). -/
def saveOps (repo : List Char) (ps : List CodePattern) : List DbOp :=
  DbOp.del repo :: (aggregate ps).map (fun g => DbOp.ins (rowOf repo g))

/-- Embeds `save_patterns_to_database`: returns immediately when there are no
patterns (lines 348-350), otherwise runs the delete-then-insert transaction. -/
def savePatternsToDatabase (db : List Row) (repo : List Char)
    (ps : List CodePattern) (failAt : Option Nat) : List Row :=
  if ps.isEmpty then db
  else runTransaction db (saveOps repo ps) failAt

/-! ## Corpus walk
(`extract_patterns_from_repository`, lines 244-265). -/

/-- The pieces of the filesystem the walk consults: whether the root exists
and is readable, and the recursive glob listing per extension pattern. -/
structure FileSystem where
  dirOk : List Char → Bool
  listing : List Char → List Char → List (List Char)

/-- Embeds `Path(root).rglob(pat)`, per the `pathlib` semantics the code relies on:
a root that does not exist (or is unreadable) yields no paths — it raises
nothing. -/
def rglob (fs : FileSystem) (root pat : List Char) : List (List Char) :=
  if fs.dirOk root then fs.listing root pat else []

/-- Lines 249-262: gather `*.ts`, `*.js`, `*.tsx`, `*.jsx` files, drop paths
containing `node_modules` or `dist`, and run the per-file extraction on each
survivor, accumulating occurrences.  The per-file rule matcher is passed as a
parameter (`extractFile`): no claim about the walk depends on its content,
and the results below hold for every matcher. -/
def extractPatternsFromRepository (fs : FileSystem) (root : List Char)
    (extractFile : List Char → List CodePattern) : List CodePattern :=
  let all_files :=
    rglob fs root ("*.ts".toList) ++ rglob fs root ("*.js".toList) ++
      rglob fs root ("*.tsx".toList) ++ rglob fs root ("*.jsx".toList)
  let filtered_files := all_files.filter
    (fun p => !containsSub p ("node_modules".toList) && !containsSub p ("dist".toList))
  filtered_files.foldl (fun acc p => acc ++ extractFile p) []

/-! ## Concrete sample data used to instantiate the theorems -/

/-- Build an occurrence with the fields the claims exercise. -/
def mkPattern (t c : List Char) (cat : PatternCategory) (f : List Char) (conf : ℚ) :
    CodePattern :=
  { pattern_type := t
    pattern_content := c
    description := []
    category := cat
    subcategory := none
    file_path := f
    line_start := 1
    line_end := 1
    language := ("typescript".toList)
    framework := none
    confidence_score := conf }

/-- An `await_usage` occurrence in `src/a.ts`. -/
def occA : CodePattern :=
  mkPattern ("await_usage".toList) ("await ".toList) .async_patterns ("src/a.ts".toList) (3/10)

/-- The same logical pattern as `occA`, sighted in `src/b.ts`. -/
def occB : CodePattern :=
  mkPattern ("await_usage".toList) ("await ".toList) .async_patterns ("src/b.ts".toList) (3/10)

/-- A `console_statements` occurrence in `src/a.ts`. -/
def occC : CodePattern :=
  mkPattern ("console_statements".toList) ("console.log".toList) .code_quality
    ("src/a.ts".toList) (6/10)

/-- A sample extraction run: two sightings of one pattern plus another pattern. -/
def psC1 : List CodePattern := [occA, occC, occB]

/-- The hash of the duplicated pattern in `psC1`. -/
def hC1 : List Char := occA.pattern_hash

/-- An `fs_sync_operations` occurrence; `fs_sync_operations` has severity
`PatternSeverity.HIGH`, so its `confidence_score` is `0.9`. -/
def occSyncHigh : CodePattern :=
  mkPattern ("fs_sync_operations".toList) ("fs.readFileSync".toList) .performance
    ("src/index.ts".toList) (PatternSeverity.high.value)

/-- A stored row under a given repository id. -/
def mkRow (repo ptype : List Char) : Row :=
  { repository_id := repo
    pattern_type := ptype
    pattern_content := []
    pattern_hash := []
    category := []
    subcategory := none
    file_path := []
    line_start := 1
    line_end := 1
    language := []
    framework := none
    confidence_score := 0
    usage_count := 1
    context_before := []
    context_after := []
    file_count := 1
    files := [] }

/-- A database holding prior rows for two repositories. -/
def dbC7 : List Row :=
  [mkRow ("repo1".toList) ("old_a".toList), mkRow ("repo1".toList) ("old_b".toList),
   mkRow ("repo2".toList) ("other".toList)]

/-- A fresh (smaller) extraction result for `repo1`. -/
def psC7 : List CodePattern := [occC]

/-- A filesystem whose root directory is missing/unreadable, although the
(unreachable) listing is not empty. -/
def fsC8 : FileSystem :=
  ⟨fun _ => false, fun _ _ => [("repo/app.ts".toList)]⟩

/-- A five-line file, as the `content.splitlines()` list. -/
def linesFive : List (List Char) :=
  [("l1();".toList), ("l2();".toList), ("l3();".toList), ("l4();".toList), ("l5();".toList)]

/-- File content that imports a UI framework and also matches the generic
module-system indicator (`require(`). -/
def cReactNode : List Char :=
  ("import React\nrequire(x)".toList)

/-! ## Helper lemmas: injectivity of the pattern hash -/

theorem colon_split_left {a b x y : List Char} (ha : ':' ∉ a) (hb : ':' ∉ b)
    (h : a ++ ':' :: x = b ++ ':' :: y) : a = b ∧ x = y := by
  induction a generalizing b with
  | nil =>
    cases b with
    | nil => simpa using h
    | cons d u =>
      simp only [List.nil_append, List.cons_append, List.cons.injEq] at h
      cases h.1
      exact absurd (List.mem_cons_self _ _) hb
  | cons c a ih =>
    cases b with
    | nil =>
      simp only [List.nil_append, List.cons_append, List.cons.injEq] at h
      cases h.1.symm
      exact absurd (List.mem_cons_self _ _) ha
    | cons d u =>
      simp only [List.cons_append, List.cons.injEq] at h
      obtain ⟨rfl, h2⟩ := h
      have ha' : ':' ∉ a := fun hm => ha (List.mem_cons_of_mem _ hm)
      have hb' : ':' ∉ u := fun hm => hb (List.mem_cons_of_mem _ hm)
      obtain ⟨rfl, rfl⟩ := ih ha' hb' h2
      exact ⟨rfl, rfl⟩

theorem colon_split_right {x y a b : List Char} (ha : ':' ∉ a) (hb : ':' ∉ b)
    (h : x ++ ':' :: a = y ++ ':' :: b) : x = y ∧ a = b := by
  have hrev : a.reverse ++ ':' :: x.reverse = b.reverse ++ ':' :: y.reverse := by
    have h' := congrArg List.reverse h
    simpa [List.reverse_append, List.append_assoc] using h'
  have ha' : ':' ∉ a.reverse := by simpa using ha
  have hb' : ':' ∉ b.reverse := by simpa using hb
  obtain ⟨h1, h2⟩ := colon_split_left ha' hb' hrev
  constructor
  · have := congrArg List.reverse h2
    simpa using this
  · have := congrArg List.reverse h1
    simpa using this

theorem categoryValue_no_colon (c : PatternCategory) : ':' ∉ c.value := by
  cases c <;> decide

theorem categoryValue_injective {c d : PatternCategory} (h : c.value = d.value) : c = d := by
  cases c <;> cases d <;> first | rfl | (exfalso; exact absurd h (by decide))

theorem ruleNames_colon_free : ∀ n ∈ ruleNames, ':' ∉ n := by decide

/-- Two patterns hash equal iff their `(rule_id, matched_text, category)`
triples coincide, provided neither rule id contains `':'` (true of every
registry rule id). -/
theorem pattern_hash_inj {p q : CodePattern}
    (hp : ':' ∉ p.pattern_type) (hq : ':' ∉ q.pattern_type) :
    p.pattern_hash = q.pattern_hash ↔ keyTriple p = keyTriple q := by
  constructor
  · intro h
    unfold CodePattern.pattern_hash at h
    have h' : p.pattern_type ++ ':' :: (p.pattern_content ++ ':' :: p.category.value) =
        q.pattern_type ++ ':' :: (q.pattern_content ++ ':' :: q.category.value) := by
      simpa [List.append_assoc] using h
    obtain ⟨h1, h2⟩ := colon_split_left hp hq h'
    obtain ⟨h3, h4⟩ :=
      colon_split_right (categoryValue_no_colon p.category) (categoryValue_no_colon q.category) h2
    simp [keyTriple, h1, h3, categoryValue_injective h4]
  · intro h
    simp only [keyTriple, Prod.mk.injEq] at h
    unfold CodePattern.pattern_hash
    rw [h.1, h.2.1, h.2.2]

/-- C2: for occurrences whose rule ids come from the registry, pattern hashes
are equal iff the `(rule_id, matched_text, category)` triples are equal; two
occurrences with equal matched text but different rule ids never share a
hash; occurrences differing only in `file_path` or line numbers always share
a hash. -/
theorem C2_pattern_hash_discrimination (p q : CodePattern)
    (hp : p.pattern_type ∈ ruleNames) (hq : q.pattern_type ∈ ruleNames) :
    (p.pattern_hash = q.pattern_hash ↔ keyTriple p = keyTriple q) ∧
    (p.pattern_content = q.pattern_content → p.pattern_type ≠ q.pattern_type →
      p.pattern_hash ≠ q.pattern_hash) ∧
    (∀ f1 f2 : List Char, ∀ a1 b1 a2 b2 : Nat,
      ({ p with file_path := f1, line_start := a1, line_end := b1 } : CodePattern).pattern_hash =
        ({ p with file_path := f2, line_start := a2, line_end := b2 } : CodePattern).pattern_hash) := by
  have hp' := ruleNames_colon_free _ hp
  have hq' := ruleNames_colon_free _ hq
  refine ⟨pattern_hash_inj hp' hq', ?_, ?_⟩
  · intro _ hne h
    have ht := (pattern_hash_inj hp' hq').1 h
    simp only [keyTriple, Prod.mk.injEq] at ht
    exact hne ht.1
  · intro f1 f2 a1 b1 a2 b2
    rfl

theorem C2_witness :
    (occSyncHigh.pattern_type ∈ ruleNames) ∧ (occC.pattern_type ∈ ruleNames) ∧
    ((occSyncHigh.pattern_hash = occC.pattern_hash ↔ keyTriple occSyncHigh = keyTriple occC) ∧
      (occSyncHigh.pattern_content = occC.pattern_content →
        occSyncHigh.pattern_type ≠ occC.pattern_type →
        occSyncHigh.pattern_hash ≠ occC.pattern_hash) ∧
      (∀ f1 f2 : List Char, ∀ a1 b1 a2 b2 : Nat,
        ({ occSyncHigh with file_path := f1, line_start := a1, line_end := b1 }
            : CodePattern).pattern_hash =
          ({ occSyncHigh with file_path := f2, line_start := a2, line_end := b2 }
            : CodePattern).pattern_hash)) :=
  ⟨by decide, by decide, C2_pattern_hash_discrimination occSyncHigh occC (by decide) (by decide)⟩

/-! ## Helper lemmas: the aggregation loop -/

theorem findGroup_cons_eq (g : PatternGroup) (gs : List PatternGroup) {h : List Char}
    (heq : g.key = h) : findGroup (g :: gs) h = some g := by
  unfold findGroup
  rw [List.find?_cons_of_pos]
  simpa using heq

theorem findGroup_cons_ne (g : PatternGroup) (gs : List PatternGroup) {h : List Char}
    (hne : ¬g.key = h) : findGroup (g :: gs) h = findGroup gs h := by
  unfold findGroup
  rw [List.find?_cons_of_neg]
  simpa using hne

theorem findGroup_insertOcc_eq (gs : List PatternGroup) (p : CodePattern) :
    findGroup (insertOcc gs p) p.pattern_hash =
      some (match findGroup gs p.pattern_hash with
            | some g => { g with count := g.count + 1, files := addFile g.files p.file_path }
            | none => ⟨p.pattern_hash, p, 1, [p.file_path]⟩) := by
  induction gs with
  | nil => simp [insertOcc, findGroup]
  | cons g gs ih =>
    by_cases hk : g.key = p.pattern_hash
    · simp [insertOcc, hk, findGroup]
    · have e1 : insertOcc (g :: gs) p = g :: insertOcc gs p := by
        simp [insertOcc, hk]
      rw [e1, findGroup_cons_ne g _ hk, findGroup_cons_ne g _ hk, ih]

theorem findGroup_insertOcc_ne (gs : List PatternGroup) (p : CodePattern) {h : List Char}
    (hne : h ≠ p.pattern_hash) :
    findGroup (insertOcc gs p) h = findGroup gs h := by
  induction gs with
  | nil =>
    unfold insertOcc
    rw [findGroup_cons_ne _ _ (fun e => hne e.symm)]
  | cons g gs ih =>
    by_cases hk : g.key = p.pattern_hash
    · have hgk : ¬g.key = h := fun hgh => hne (hgh.symm.trans hk)
      have e1 : insertOcc (g :: gs) p =
          { g with count := g.count + 1, files := addFile g.files p.file_path } :: gs := by
        simp [insertOcc, hk]
      rw [e1,
        findGroup_cons_ne
          { g with count := g.count + 1, files := addFile g.files p.file_path } gs hgk,
        findGroup_cons_ne _ _ hgk]
    · have e1 : insertOcc (g :: gs) p = g :: insertOcc gs p := by
        simp [insertOcc, hk]
      rw [e1]
      by_cases hgh : g.key = h
      · rw [findGroup_cons_eq _ _ hgh, findGroup_cons_eq _ _ hgh]
      · rw [findGroup_cons_ne _ _ hgh, findGroup_cons_ne _ _ hgh]
        exact ih

theorem aggregate_append_single (ps : List CodePattern) (p : CodePattern) :
    aggregate (ps ++ [p]) = insertOcc (aggregate ps) p := by
  simp [aggregate, List.foldl_append]

theorem dedupFilesOf_go_irrel (ps : List CodePattern) (h : List Char)
    (acc : List (List Char)) (hall : ∀ p ∈ ps, p.pattern_hash ≠ h) :
    ps.foldl (fun fs p => if p.pattern_hash = h then addFile fs p.file_path else fs) acc = acc := by
  induction ps generalizing acc with
  | nil => rfl
  | cons q qs ih =>
    have hq : q.pattern_hash ≠ h := hall q (List.mem_cons_self _ _)
    simp only [List.foldl_cons, if_neg hq]
    exact ih acc (fun p hp => hall p (List.mem_cons_of_mem _ hp))

theorem dedupFilesOf_append_single (ps : List CodePattern) (p : CodePattern) (h : List Char) :
    dedupFilesOf (ps ++ [p]) h =
      if p.pattern_hash = h then addFile (dedupFilesOf ps h) p.file_path
      else dedupFilesOf ps h := by
  simp [dedupFilesOf, List.foldl_append]

theorem findGroup_aggregate (ps : List CodePattern) (h : List Char) :
    findGroup (aggregate ps) h =
      match ps.find? (fun p => decide (p.pattern_hash = h)) with
      | none => none
      | some rep =>
        some ⟨h, rep, (ps.filter (fun p => decide (p.pattern_hash = h))).length,
              dedupFilesOf ps h⟩ := by
  induction ps using List.reverseRecOn with
  | nil => simp [aggregate, findGroup]
  | append_singleton ps p ih =>
    rw [aggregate_append_single]
    by_cases hph : p.pattern_hash = h
    · subst hph
      rw [findGroup_insertOcc_eq, ih]
      cases hf : ps.find? (fun q => decide (q.pattern_hash = p.pattern_hash)) with
      | none =>
        have hall : ∀ q ∈ ps, ¬(q.pattern_hash = p.pattern_hash) := by
          intro q hq
          have := List.find?_eq_none.mp hf q hq
          simpa using this
        have hfilter : ps.filter (fun q => decide (q.pattern_hash = p.pattern_hash)) = [] := by
          rw [List.filter_eq_nil_iff]
          intro q hq
          simpa using hall q hq
        have hfind : (ps ++ [p]).find? (fun q => decide (q.pattern_hash = p.pattern_hash))
            = some p := by
          rw [List.find?_append, hf]
          simp
        have hdedup0 : dedupFilesOf ps p.pattern_hash = [] :=
          dedupFilesOf_go_irrel ps p.pattern_hash [] hall
        have hdedup : dedupFilesOf (ps ++ [p]) p.pattern_hash = [p.file_path] := by
          rw [dedupFilesOf_append_single, if_pos rfl, hdedup0]
          rfl
        rw [hfind, hdedup]
        simp [List.filter_append, hfilter]
      | some rep =>
        have hfind : (ps ++ [p]).find? (fun q => decide (q.pattern_hash = p.pattern_hash))
            = some rep := by
          rw [List.find?_append, hf]
          rfl
        rw [hfind]
        simp [List.filter_append, dedupFilesOf_append_single]
    · rw [findGroup_insertOcc_ne _ _ (Ne.symm hph), ih]
      have hpd : (fun q => decide (q.pattern_hash = h)) p = false := by simpa using hph
      have hfind : (ps ++ [p]).find? (fun q => decide (q.pattern_hash = h))
          = ps.find? (fun q => decide (q.pattern_hash = h)) := by
        rw [List.find?_append]
        cases hf : ps.find? (fun q => decide (q.pattern_hash = h)) with
        | none => simp [List.find?, hpd]
        | some rep => rfl
      rw [hfind]
      have hfilter : (ps ++ [p]).filter (fun q => decide (q.pattern_hash = h))
          = ps.filter (fun q => decide (q.pattern_hash = h)) := by
        simp [List.filter_append, hpd]
      rw [hfilter, dedupFilesOf_append_single, if_neg hph]

theorem mem_addFile {fs : List (List Char)} {g f : List Char} :
    f ∈ addFile fs g ↔ f ∈ fs ∨ f = g := by
  unfold addFile
  split
  · constructor
    · exact Or.inl
    · rintro (hf | rfl)
      · exact hf
      · assumption
  · simp

theorem length_addFile_le (fs : List (List Char)) (g : List Char) :
    (addFile fs g).length ≤ fs.length + 1 := by
  unfold addFile
  split
  · omega
  · simp

theorem mem_dedupFilesOf_go (ps : List CodePattern) (h : List Char)
    (acc : List (List Char)) (f : List Char) :
    f ∈ ps.foldl (fun fs p => if p.pattern_hash = h then addFile fs p.file_path else fs) acc ↔
      f ∈ acc ∨ ∃ p ∈ ps, p.pattern_hash = h ∧ p.file_path = f := by
  induction ps generalizing acc with
  | nil => simp
  | cons q qs ih =>
    simp only [List.foldl_cons]
    by_cases hq : q.pattern_hash = h
    · rw [if_pos hq, ih, mem_addFile]
      constructor
      · rintro ((hf | rfl) | ⟨p, hp, hh, hf⟩)
        · exact Or.inl hf
        · exact Or.inr ⟨q, List.mem_cons_self _ _, hq, rfl⟩
        · exact Or.inr ⟨p, List.mem_cons_of_mem _ hp, hh, hf⟩
      · rintro (hf | ⟨p, hp, hh, hf⟩)
        · exact Or.inl (Or.inl hf)
        · rcases List.mem_cons.mp hp with rfl | hp'
          · exact Or.inl (Or.inr hf.symm)
          · exact Or.inr ⟨p, hp', hh, hf⟩
    · rw [if_neg hq, ih]
      constructor
      · rintro (hf | ⟨p, hp, hh, hf⟩)
        · exact Or.inl hf
        · exact Or.inr ⟨p, List.mem_cons_of_mem _ hp, hh, hf⟩
      · rintro (hf | ⟨p, hp, hh, hf⟩)
        · exact Or.inl hf
        · rcases List.mem_cons.mp hp with rfl | hp'
          · exact absurd hh hq
          · exact Or.inr ⟨p, hp', hh, hf⟩

theorem mem_dedupFilesOf (ps : List CodePattern) (h : List Char) (f : List Char) :
    f ∈ dedupFilesOf ps h ↔ ∃ p ∈ ps, p.pattern_hash = h ∧ p.file_path = f := by
  rw [dedupFilesOf, mem_dedupFilesOf_go]
  simp

theorem length_dedupFilesOf_go_le (ps : List CodePattern) (h : List Char)
    (acc : List (List Char)) :
    (ps.foldl (fun fs p => if p.pattern_hash = h then addFile fs p.file_path else fs) acc).length ≤
      acc.length + (ps.filter (fun p => decide (p.pattern_hash = h))).length := by
  induction ps generalizing acc with
  | nil => simp
  | cons q qs ih =>
    simp only [List.foldl_cons, List.filter_cons]
    by_cases hq : q.pattern_hash = h
    · rw [if_pos hq]
      have hd : decide (q.pattern_hash = h) = true := by simpa using hq
      rw [hd, if_pos rfl, List.length_cons]
      have h1 := ih (addFile acc q.file_path)
      have h2 := length_addFile_le acc q.file_path
      omega
    · rw [if_neg hq]
      have hd : decide (q.pattern_hash = h) = false := by simpa using hq
      rw [hd]
      exact ih acc

theorem length_dedupFilesOf_le (ps : List CodePattern) (h : List Char) :
    (dedupFilesOf ps h).length ≤ (ps.filter (fun p => decide (p.pattern_hash = h))).length := by
  have := length_dedupFilesOf_go_le ps h []
  simpa [dedupFilesOf] using this

/-- C1: for every hash `h` occurring among the extracted occurrences, the
emitted group for `h` has `usage_count` equal to the number of raw
occurrences whose `(rule_id, matched_text, category)` triple equals the
group's key triple, its file set is exactly the distinct `file_path` values
of those occurrences (so `|files| ≤ usage_count`), and the representative is
the first occurrence with that hash in input order.  (The rule-registry
hypothesis supplies the colon-freeness of rule ids under which the hash is a
faithful image of the triple.) -/
theorem C1_aggregation_invariants (ps : List CodePattern) (h : List Char)
    (hreg : ∀ p ∈ ps, p.pattern_type ∈ ruleNames)
    (hocc : ∃ p ∈ ps, p.pattern_hash = h) :
    ∃ g, findGroup (aggregate ps) h = some g ∧
      g.count = (ps.filter (fun p => decide (keyTriple p = keyTriple g.rep))).length ∧
      (∀ f, f ∈ g.files ↔ ∃ p ∈ ps, keyTriple p = keyTriple g.rep ∧ p.file_path = f) ∧
      g.files.length ≤ g.count ∧
      ps.find? (fun p => decide (p.pattern_hash = h)) = some g.rep := by
  obtain ⟨p0, hp0, hh0⟩ := hocc
  have hfindsome : (ps.find? (fun p => decide (p.pattern_hash = h))).isSome := by
    rw [List.find?_isSome]
    exact ⟨p0, hp0, by simpa using hh0⟩
  obtain ⟨rep, hrep⟩ := Option.isSome_iff_exists.mp hfindsome
  have hrepmem : rep ∈ ps := List.mem_of_find?_eq_some hrep
  have hrephash : rep.pattern_hash = h := by
    have := List.find?_some hrep
    simpa using this
  have hiff : ∀ p ∈ ps, (p.pattern_hash = h ↔ keyTriple p = keyTriple rep) := by
    intro p hp
    rw [← hrephash]
    exact pattern_hash_inj (ruleNames_colon_free _ (hreg p hp))
      (ruleNames_colon_free _ (hreg rep hrepmem))
  have hfiltereq : ps.filter (fun p => decide (p.pattern_hash = h))
      = ps.filter (fun p => decide (keyTriple p = keyTriple rep)) := by
    apply List.filter_congr
    intro p hp
    exact decide_eq_decide.mpr (hiff p hp)
  refine ⟨⟨h, rep, (ps.filter (fun p => decide (p.pattern_hash = h))).length,
    dedupFilesOf ps h⟩, ?_, ?_, ?_, ?_, ?_⟩
  · rw [findGroup_aggregate, hrep]
  · simpa using congrArg List.length hfiltereq
  · intro f
    rw [mem_dedupFilesOf]
    constructor
    · rintro ⟨p, hp, hph, hpf⟩
      exact ⟨p, hp, (hiff p hp).mp hph, hpf⟩
    · rintro ⟨p, hp, hpt, hpf⟩
      exact ⟨p, hp, (hiff p hp).mpr hpt, hpf⟩
  · exact length_dedupFilesOf_le ps h
  · exact hrep

theorem C1_witness :
    (∀ p ∈ psC1, p.pattern_type ∈ ruleNames) ∧ (∃ p ∈ psC1, p.pattern_hash = hC1) ∧
    (∃ g, findGroup (aggregate psC1) hC1 = some g ∧
      g.count = (psC1.filter (fun p => decide (keyTriple p = keyTriple g.rep))).length ∧
      (∀ f, f ∈ g.files ↔ ∃ p ∈ psC1, keyTriple p = keyTriple g.rep ∧ p.file_path = f) ∧
      g.files.length ≤ g.count ∧
      psC1.find? (fun p => decide (p.pattern_hash = hC1)) = some g.rep) :=
  ⟨by decide, by decide, C1_aggregation_invariants psC1 hC1 (by decide) (by decide)⟩

/-! ## Helper lemmas: line numbers -/

theorem nlCount_zero (T : List Char) : nlCount T 0 = 0 := rfl

theorem nlCount_cons_succ (c : Char) (t : List Char) (i : Nat) :
    nlCount (c :: t) (i + 1) = nlCount t i + (if c = '\n' then 1 else 0) := by
  simp [nlCount, List.take_succ_cons, List.count_cons]

theorem nlCount_mono (T : List Char) {s e : Nat} (h : s ≤ e) :
    nlCount T s ≤ nlCount T e := by
  unfold nlCount
  have hsplit : T.take e = T.take s ++ (T.drop s).take (e - s) := by
    have := List.take_add T s (e - s)
    rwa [Nat.add_sub_cancel' h] at this
  rw [hsplit, List.count_append]
  omega

theorem lineStartOffset_le (T : List Char) (s : Nat) :
    lineStartOffset T (nlCount T s + 1) ≤ s := by
  induction T generalizing s with
  | nil =>
    simp [nlCount, lineStartOffset]
  | cons c t ih =>
    cases s with
    | zero => simp [nlCount_zero, lineStartOffset]
    | succ s' =>
      rw [nlCount_cons_succ]
      by_cases hc : c = '\n'
      · rw [if_pos hc]
        have : lineStartOffset (c :: t) (nlCount t s' + 1 + 1)
            = 1 + lineStartOffset t (nlCount t s' + 1) := by
          simp [lineStartOffset, hc]
        rw [this]
        have := ih s'
        omega
      · rw [if_neg hc]
        cases hnt : nlCount t s' with
        | zero => simp [lineStartOffset]
        | succ m =>
          have : lineStartOffset (c :: t) (m + 1 + 1) = 1 + lineStartOffset t (m + 1 + 1) := by
            simp [lineStartOffset, hc]
          rw [this]
          have := ih s'
          rw [hnt] at this
          omega

theorem le_lineEndOffset (T : List Char) (e : Nat) (he : e ≤ T.length) :
    e ≤ lineEndOffset T (nlCount T e + 1) := by
  induction T generalizing e with
  | nil =>
    simp only [List.length_nil, Nat.le_zero] at he
    subst he
    exact Nat.zero_le _
  | cons c t ih =>
    cases e with
    | zero => exact Nat.zero_le _
    | succ e' =>
      have he' : e' ≤ t.length := by simpa using he
      rw [nlCount_cons_succ]
      by_cases hc : c = '\n'
      · rw [if_pos hc]
        have hstep : lineEndOffset (c :: t) (nlCount t e' + 1 + 1)
            = 1 + lineEndOffset t (nlCount t e' + 1) := by
          simp [lineEndOffset, hc]
        rw [hstep]
        have := ih e' he'
        omega
      · rw [if_neg hc]
        have hstep : lineEndOffset (c :: t) (nlCount t e' + 1 + 0)
            = 1 + lineEndOffset t (nlCount t e' + 1) := by
          simp [lineEndOffset, hc]
        rw [hstep]
        have := ih e' he'
        omega

theorem sliceWithin (T : List Char) {a s e b : Nat} (h1 : a ≤ s) (h2 : s ≤ e) (h3 : e ≤ b) :
    ((T.drop s).take (e - s)) <:+: ((T.drop a).take (b - a)) := by
  refine ⟨(T.drop a).take (s - a), (T.drop e).take (b - e), ?_⟩
  have hb : b - a = (s - a) + ((e - s) + (b - e)) := by omega
  rw [hb, List.take_add, List.take_add]
  have hd1 : (T.drop a).drop (s - a) = T.drop s := by
    rw [List.drop_drop]
    congr 1
    omega
  have hd2 : (T.drop s).drop (e - s) = T.drop e := by
    rw [List.drop_drop]
    congr 1
    omega
  rw [hd1, hd2, List.append_assoc]

/-- C3: `line_start` is one plus the newline count before the match start,
`line_end` one plus the newline count before the match end; both are at
least 1, `line_start ≤ line_end`, and the text of `T` from the start of line
`line_start` to the end of line `line_end` contains the matched slice in
full. -/
theorem C3_line_numbers (T : List Char) (s e : Nat) (hse : s ≤ e) (heT : e ≤ T.length) :
    lineStart T s = nlCount T s + 1 ∧
    lineEnd T e = nlCount T e + 1 ∧
    1 ≤ lineStart T s ∧
    lineStart T s ≤ lineEnd T e ∧
    ((T.drop s).take (e - s)) <:+: lineSpan T (lineStart T s) (lineEnd T e) := by
  refine ⟨rfl, rfl, Nat.succ_le_succ (Nat.zero_le _),
    Nat.succ_le_succ (nlCount_mono T hse), ?_⟩
  unfold lineSpan lineStart lineEnd
  exact sliceWithin T (lineStartOffset_le T s) hse (le_lineEndOffset T e heT)

theorem C3_witness :
    3 ≤ 5 ∧ 5 ≤ ("ab\ncd".toList).length ∧
    (lineStart ("ab\ncd".toList) 3 = nlCount ("ab\ncd".toList) 3 + 1 ∧
      lineEnd ("ab\ncd".toList) 5 = nlCount ("ab\ncd".toList) 5 + 1 ∧
      1 ≤ lineStart ("ab\ncd".toList) 3 ∧
      lineStart ("ab\ncd".toList) 3 ≤ lineEnd ("ab\ncd".toList) 5 ∧
      ((("ab\ncd".toList).drop 3).take (5 - 3)) <:+:
        lineSpan ("ab\ncd".toList) (lineStart ("ab\ncd".toList) 3)
          (lineEnd ("ab\ncd".toList) 5)) :=
  ⟨by decide, by decide, C3_line_numbers ("ab\ncd".toList) 3 5 (by decide) (by decide)⟩

/-- C4 (divergence witness): the bucketing of the report (lines 442-449) labels a
confidence of `0.9` — the value of `PatternSeverity.HIGH`, carried by every
occurrence of an `fs_sync_operations`-severity rule — as `critical`, a
`0.6` (`MEDIUM`) as `high` and a `0.3` (`LOW`) as `medium`, one tier above
the four-tier mapping low=0.3 / medium=0.6 / high=0.9 / critical=1.0 of the
`PatternSeverity` enum that the claim requires; consequently the single
HIGH-severity occurrence `occSyncHigh` is counted in the `critical` tier,
not the `high` tier. -/
theorem C4_severity_tier_shift :
    severityLabel PatternSeverity.low.value = ("medium".toList) ∧
    severityLabel PatternSeverity.medium.value = ("high".toList) ∧
    severityLabel PatternSeverity.high.value = ("critical".toList) ∧
    severityLabel PatternSeverity.critical.value = ("critical".toList) ∧
    severityCounts [occSyncHigh] = [(("critical".toList), 1)] ∧
    severityCounts [occSyncHigh] ≠ [(("high".toList), 1)] := by
  have h3 : severityLabel PatternSeverity.low.value = ("medium".toList) := by
    simp only [severityLabel, PatternSeverity.value]
    rw [if_neg (by norm_num), if_neg (by norm_num), if_pos (by norm_num)]
  have h6 : severityLabel PatternSeverity.medium.value = ("high".toList) := by
    simp only [severityLabel, PatternSeverity.value]
    rw [if_neg (by norm_num), if_pos (by norm_num)]
  have h9 : severityLabel PatternSeverity.high.value = ("critical".toList) := by
    simp only [severityLabel, PatternSeverity.value]
    rw [if_pos (by norm_num)]
  have h10 : severityLabel PatternSeverity.critical.value = ("critical".toList) := by
    simp only [severityLabel, PatternSeverity.value]
    rw [if_pos (by norm_num)]
  have hocc : severityLabel occSyncHigh.confidence_score = ("critical".toList) := h9
  have hcounts : severityCounts [occSyncHigh] = [(("critical".toList), 1)] := by
    simp [severityCounts, bumpCount, hocc]
  refine ⟨h3, h6, h9, h10, hcounts, ?_⟩
  rw [hcounts]
  decide

/-! ## Helper lemmas: context windows -/

theorem contextBefore_eq (lines : List (List Char)) (ls : Nat)
    (hls : ls ≤ lines.length + 1) :
    contextBefore lines ls =
      List.intercalate ("\n".toList) (takeLast 2 (lines.take (ls - 1))) := by
  unfold contextBefore pySlice takeLast
  congr 2
  rw [List.length_take]
  omega

theorem contextAfter_eq (lines : List (List Char)) (le : Nat) :
    contextAfter lines le =
      List.intercalate ("\n".toList) ((lines.drop le).take 2) := by
  unfold contextAfter pySlice
  congr 1
  rw [min_comm, ← List.take_take, List.take_length, List.drop_take]
  congr 1
  omega

/-- C5 (amended): the context window is the **2** lines immediately
preceding `line_start` (fewer when clamped at the start of the file) joined
as one block, and the 2 lines immediately following `line_end` (fewer when
clamped at the end of the file) joined as one block. -/
theorem C5_context_window (lines : List (List Char)) (ls le : Nat)
    (hls : ls ≤ lines.length + 1) :
    contextBefore lines ls =
      List.intercalate ("\n".toList) (takeLast 2 (lines.take (ls - 1))) ∧
    contextAfter lines le =
      List.intercalate ("\n".toList) ((lines.drop le).take 2) :=
  ⟨contextBefore_eq lines ls hls, contextAfter_eq lines le⟩

/-- C5 (counterexample to the claim as stated): for a five-line file and a
match on line 4, `context_before` is **not** the 3 lines immediately
preceding line 4 joined as one block — the code slices
`lines[max(0, ls-3) : ls-1]`, which holds only 2 lines. -/
theorem C5_counterexample :
    contextBefore linesFive 4 ≠
      List.intercalate ("\n".toList) (takeLast 3 (linesFive.take 3)) := by
  decide

theorem C5_witness :
    4 ≤ linesFive.length + 1 ∧
    (contextBefore linesFive 4 =
        List.intercalate ("\n".toList) (takeLast 2 (linesFive.take (4 - 1))) ∧
      contextAfter linesFive 4 =
        List.intercalate ("\n".toList) ((linesFive.drop 4).take 2)) :=
  ⟨by decide, C5_context_window linesFive 4 4 (by decide)⟩

/-- C10: an extraction run with zero occurrences returns from the
persistence step before any database operation: the stored rows — in
particular the prior rows of the given repository id — are untouched, for
every failure behaviour of the storage engine. -/
theorem C10_empty_save_is_noop (db : List Row) (repo : List Char) (failAt : Option Nat) :
    savePatternsToDatabase db repo [] failAt = db ∧
    (savePatternsToDatabase db repo [] failAt).filter
        (fun r => decide (r.repository_id = repo)) =
      db.filter (fun r => decide (r.repository_id = repo)) :=
  ⟨rfl, rfl⟩

/-- C6 (amended): the classifier evaluates its heuristics in strict priority
order with first match wins — in particular a content matching a
UI-framework import pattern is classified with that framework even when the
generic module-system indicator also matches — and a content matching none
of the content heuristics yields the absent marker (`none`, not an empty
string) **provided the file path does not contain `'node'`** (the `nodejs`
branch also fires on such paths). -/
theorem C6_framework_priority (content path : List Char) :
    (reactSearch content = true → determineFramework content path = some ("react".toList)) ∧
    (reactSearch content = false → vueSearch content = true →
      determineFramework content path = some ("vue".toList)) ∧
    (reactSearch content = false → vueSearch content = false → angularSearch content = true →
      determineFramework content path = some ("angular".toList)) ∧
    (reactSearch content = false → vueSearch content = false → angularSearch content = false →
      expressSearch content = true → determineFramework content path = some ("express".toList)) ∧
    (reactSearch content = false → vueSearch content = false → angularSearch content = false →
      expressSearch content = false → nodeContentSearch content = false →
      containsSub path ("node".toList) = false →
      determineFramework content path = none) := by
  unfold determineFramework
  refine ⟨?_, ?_, ?_, ?_, ?_⟩ <;> intros <;> simp_all

/-- C6 (counterexample to the claim as stated): the content `"y"` matches
none of the five content heuristics, yet a file with that content whose path
contains `node` is classified `nodejs`, not absent. -/
theorem C6_counterexample :
    reactSearch ("y".toList) = false ∧ vueSearch ("y".toList) = false ∧
    angularSearch ("y".toList) = false ∧ expressSearch ("y".toList) = false ∧
    nodeContentSearch ("y".toList) = false ∧
    determineFramework ("y".toList) ("nodes.js".toList) = some ("nodejs".toList) := by
  decide

theorem C6_witness :
    determineFramework cReactNode ("src/App.tsx".toList) = some ("react".toList) ∧
    determineFramework ("let a = 1".toList) ("src/app.ts".toList) = none :=
  ⟨(C6_framework_priority cReactNode ("src/App.tsx".toList)).1 (by decide),
   (C6_framework_priority ("let a = 1".toList) ("src/app.ts".toList)).2.2.2.2
     (by decide) (by decide) (by decide) (by decide) (by decide) (by decide)⟩

/-- C9 (amended): the framework classification depends on the file content
and on exactly one fact about the path — whether it contains the substring
`node`; two files with identical content whose paths agree on that fact are
classified identically. -/
theorem C9_framework_path_dependence (content p1 p2 : List Char)
    (h : containsSub p1 ("node".toList) = containsSub p2 ("node".toList)) :
    determineFramework content p1 = determineFramework content p2 := by
  unfold determineFramework
  rw [h]

/-- C9 (counterexample to the claim as stated): two files with identical
content (`"x"`, matching no content heuristic) are classified differently —
`nodejs` versus absent — because one path contains `node`. -/
theorem C9_counterexample :
    determineFramework ("x".toList) ("node_app.js".toList) ≠
      determineFramework ("x".toList) ("main.js".toList) := by
  decide

theorem C9_witness :
    containsSub ("src/a.ts".toList) ("node".toList) =
      containsSub ("lib/b.ts".toList) ("node".toList) ∧
    determineFramework ("import vue".toList) ("src/a.ts".toList) =
      determineFramework ("import vue".toList) ("lib/b.ts".toList) :=
  ⟨by decide,
   C9_framework_path_dependence ("import vue".toList) ("src/a.ts".toList)
     ("lib/b.ts".toList) (by decide)⟩

/-! ## Helper lemmas: persistence -/

theorem runOps_ins (db : List Row) (rows : List Row) :
    runOps db (rows.map DbOp.ins) = db ++ rows := by
  induction rows generalizing db with
  | nil => simp [runOps]
  | cons r rs ih =>
    simp only [List.map_cons, runOps, List.foldl_cons]
    have := ih (applyOp db (DbOp.ins r))
    simp only [runOps] at this
    rw [this, applyOp]
    simp

/-- C7: persisting a non-empty pattern set for a repository id replaces the
stored rows for that id: on commit the rows under the id are exactly the
aggregated set (so a second, smaller run leaves no leftover rows), rows of
other ids are untouched, and a failure at any point of the transaction rolls
back to the pre-transaction table, exposing no partial state. -/
theorem C7_save_replaces_atomically (db : List Row) (repo : List Char)
    (ps : List CodePattern) (hne : ps ≠ []) :
    ((savePatternsToDatabase db repo ps none).filter
        (fun r => decide (r.repository_id = repo)) = (aggregate ps).map (rowOf repo)) ∧
    ((savePatternsToDatabase db repo ps none).filter
        (fun r => !decide (r.repository_id = repo)) =
      db.filter (fun r => !decide (r.repository_id = repo))) ∧
    (∀ k, savePatternsToDatabase db repo ps (some k) = db) := by
  have hne' : ps.isEmpty = false := by
    cases ps with
    | nil => exact absurd rfl hne
    | cons q qs => rfl
  have hrun : savePatternsToDatabase db repo ps none =
      (db.filter (fun r => !decide (r.repository_id = repo))) ++
        (aggregate ps).map (rowOf repo) := by
    unfold savePatternsToDatabase
    rw [hne']
    simp only [Bool.false_eq_true, if_false, runTransaction, saveOps, runOps,
      List.foldl_cons, applyOp]
    have := runOps_ins (db.filter (fun r => !decide (r.repository_id = repo)))
      ((aggregate ps).map (rowOf repo))
    simp only [runOps, List.map_map] at this ⊢
    exact this
  have hrows : ∀ r ∈ (aggregate ps).map (rowOf repo), r.repository_id = repo := by
    intro r hr
    obtain ⟨g, _, rfl⟩ := List.mem_map.mp hr
    rfl
  refine ⟨?_, ?_, ?_⟩
  · rw [hrun, List.filter_append]
    have h1 : (db.filter (fun r => !decide (r.repository_id = repo))).filter
        (fun r => decide (r.repository_id = repo)) = [] := by
      rw [List.filter_eq_nil_iff]
      intro r hr
      have hpred := (List.mem_filter.mp hr).2
      simp at hpred ⊢
      exact hpred
    have h2 : ((aggregate ps).map (rowOf repo)).filter
        (fun r => decide (r.repository_id = repo)) = (aggregate ps).map (rowOf repo) := by
      rw [List.filter_eq_self]
      intro r hr
      simpa using hrows r hr
    rw [h1, h2, List.nil_append]
  · rw [hrun, List.filter_append]
    have h1 : (db.filter (fun r => !decide (r.repository_id = repo))).filter
        (fun r => !decide (r.repository_id = repo)) =
        db.filter (fun r => !decide (r.repository_id = repo)) := by
      rw [List.filter_eq_self]
      intro r hr
      exact (List.mem_filter.mp hr).2
    have h2 : ((aggregate ps).map (rowOf repo)).filter
        (fun r => !decide (r.repository_id = repo)) = [] := by
      rw [List.filter_eq_nil_iff]
      intro r hr
      simpa using hrows r hr
    rw [h1, h2, List.append_nil]
  · intro k
    unfold savePatternsToDatabase
    rw [hne']
    rfl

theorem C7_witness :
    psC7 ≠ [] ∧
    (((savePatternsToDatabase dbC7 ("repo1".toList) psC7 none).filter
        (fun r => decide (r.repository_id = ("repo1".toList))) =
        (aggregate psC7).map (rowOf ("repo1".toList))) ∧
      ((savePatternsToDatabase dbC7 ("repo1".toList) psC7 none).filter
        (fun r => !decide (r.repository_id = ("repo1".toList))) =
        dbC7.filter (fun r => !decide (r.repository_id = ("repo1".toList)))) ∧
      (∀ k, savePatternsToDatabase dbC7 ("repo1".toList) psC7 (some k) = dbC7)) :=
  ⟨by decide, C7_save_replaces_atomically dbC7 ("repo1".toList) psC7 (by decide)⟩

/-- C8 (amended): a root path that does not exist or is unreadable makes the
corpus walk yield no files — `rglob` raises nothing — so the run proceeds
normally and produces zero occurrences for **every** per-file matcher; no
`CorpusNotFoundError` is raised (no such error exists in the code). -/
theorem C8_missing_root_yields_empty (fs : FileSystem) (root : List Char)
    (extractFile : List Char → List CodePattern) (h : fs.dirOk root = false) :
    extractPatternsFromRepository fs root extractFile = [] := by
  unfold extractPatternsFromRepository rglob
  rw [h]
  simp

/-- C8 (counterexample to the claim as stated): with a missing root — whose
(unreachable) listing is non-empty — and a matcher that would report an
occurrence for any file, extraction returns normally with the empty
occurrence list: it silently proceeds as if the corpus were empty instead of
failing before matching. -/
theorem C8_counterexample :
    fsC8.dirOk ("repo".toList) = false ∧
    fsC8.listing ("repo".toList) ("*.ts".toList) ≠ [] ∧
    extractPatternsFromRepository fsC8 ("repo".toList) (fun _ => [occSyncHigh]) = [] := by
  refine ⟨rfl, by decide, ?_⟩
  rfl

theorem C8_witness :
    fsC8.dirOk ("other".toList) = false ∧
    extractPatternsFromRepository fsC8 ("other".toList) (fun _ => []) = [] :=
  ⟨rfl, C8_missing_root_yields_empty fsC8 ("other".toList) (fun _ => []) rfl⟩
